import Mathlib

set_option autoImplicit false

/-!
# A verification development for the `mquery` core (eclassdoc)

This file gives a shallow embedding of the query core of `src/mquery.c`
(the final revision in that file) and proves properties of it.

Modelling conventions:
* A C `struct roff_node` becomes the inductive `RoffNode`.  The C fields
  `parent`, `prev` and `next` are navigation pointers into the same tree;
  in the embedding a node owns its `children` list, and the information the
  code reads through those pointers (`parent->tok`, `parent->next->tok`,
  `prev != NULL`, `next->tok`) is carried alongside a node as a `Ctx`
  record, maintained by each traversal exactly as the pointer structure
  would provide it.  The C fields `head` and `body` point at one of the
  node's own children; they are modelled as indices (`headIdx`, `bodyIdx`)
  into `children`, an out-of-range or absent index standing for `NULL`.
* Output written to `stdout` is accumulated as a `List Char`; diagnostics
  written to `stderr` via `warnx` are counted.  The result of a function
  is a `Fate`: a normal `return`, a process termination through
  `errx`/`err` (`exited`, carrying the exit status), or `ub` for a null
  pointer dereference / failed `assert`.
* `mandoc_escape` and `deroff` belong to the external mandoc library (they
  are not part of this repository); they are abstracted as parameters:
  an escape oracle `EscFn` (how many characters a valid escape sequence
  consumes, `none` for `ESCAPE_ERROR`) and a head-flattening oracle
  `DeroffFn` (mandoc's `deroff` appends to its `char **dest` accumulator,
  so the oracle receives the current accumulator value and the head node).
* Stream errors (negative `printf`/`fputs` results) are not modelled;
  output is total.
-/

/-- The `enum mquerylevel` status/exit codes of `mquery.c`. -/
inductive MQueryLevel : Type where
  | OK
  | NOTFOUND
  | ERROR
  | UNSUPP
  | BADARG
  | SYSERR
deriving DecidableEq, Repr

/-- The node types of mandoc's `enum roff_type` that the program inspects. -/
inductive RoffType : Type where
  | root
  | block
  | head
  | body
  | elem
  | text
deriving DecidableEq, Repr

/-- The macro tokens of mandoc's `enum roff_tok` mentioned by `mquery.c`,
plus `TOKEN_NONE` (the token of plain text nodes). -/
inductive RoffTok : Type where
  | An
  | Aq
  | Bd
  | Bl
  | Dv
  | Ev
  | Ic
  | It
  | Lk
  | Nd
  | Nm
  | Pa
  | Pp
  | Pq
  | Sh
  | Va
  | TOKEN_NONE
deriving DecidableEq, Repr

/-- The bits of the C `flags` field that `mquery.c` tests:
`NODE_NOPRT`, `NODE_NOFILL` and `NODE_LINE`. -/
structure NodeFlags : Type where
  noprt : Bool
  nofill : Bool
  line : Bool
deriving DecidableEq, Repr

/-- No flag set. -/
def flags0 : NodeFlags := ⟨false, false, false⟩

/-- A parsed document node (C `struct roff_node`).  `headIdx`/`bodyIdx`
model the `head`/`body` child pointers as indices into `children`. -/
inductive RoffNode : Type where
  | mk (ntype : RoffType) (tok : RoffTok) (flags : NodeFlags) (string : List Char)
      (headIdx : Option Nat) (bodyIdx : Option Nat) (children : List RoffNode) : RoffNode
deriving Repr

def RoffNode.ntype : RoffNode → RoffType
  | .mk ty _ _ _ _ _ _ => ty

def RoffNode.tok : RoffNode → RoffTok
  | .mk _ tk _ _ _ _ _ => tk

def RoffNode.flags : RoffNode → NodeFlags
  | .mk _ _ fl _ _ _ _ => fl

def RoffNode.string : RoffNode → List Char
  | .mk _ _ _ s _ _ _ => s

def RoffNode.headIdx : RoffNode → Option Nat
  | .mk _ _ _ _ hi _ _ => hi

def RoffNode.bodyIdx : RoffNode → Option Nat
  | .mk _ _ _ _ _ bi _ => bi

def RoffNode.children : RoffNode → List RoffNode
  | .mk _ _ _ _ _ _ cs => cs

@[simp] theorem RoffNode.ntype_mk (ty tk fl s hi bi cs) :
    (RoffNode.mk ty tk fl s hi bi cs).ntype = ty := rfl

@[simp] theorem RoffNode.tok_mk (ty tk fl s hi bi cs) :
    (RoffNode.mk ty tk fl s hi bi cs).tok = tk := rfl

@[simp] theorem RoffNode.flags_mk (ty tk fl s hi bi cs) :
    (RoffNode.mk ty tk fl s hi bi cs).flags = fl := rfl

@[simp] theorem RoffNode.string_mk (ty tk fl s hi bi cs) :
    (RoffNode.mk ty tk fl s hi bi cs).string = s := rfl

@[simp] theorem RoffNode.headIdx_mk (ty tk fl s hi bi cs) :
    (RoffNode.mk ty tk fl s hi bi cs).headIdx = hi := rfl

@[simp] theorem RoffNode.bodyIdx_mk (ty tk fl s hi bi cs) :
    (RoffNode.mk ty tk fl s hi bi cs).bodyIdx = bi := rfl

@[simp] theorem RoffNode.children_mk (ty tk fl s hi bi cs) :
    (RoffNode.mk ty tk fl s hi bi cs).children = cs := rfl

/-- The C `head` pointer: the child selected by `headIdx` (`none` = `NULL`). -/
def RoffNode.headN (n : RoffNode) : Option RoffNode :=
  match n.headIdx with
  | none => none
  | some i => n.children[i]?

/-- The C `body` pointer: the child selected by `bodyIdx` (`none` = `NULL`). -/
def RoffNode.bodyN (n : RoffNode) : Option RoffNode :=
  match n.bodyIdx with
  | none => none
  | some i => n.children[i]?

/-- The sibling/parent information the C code reads through a node's
`parent`, `prev` and `next` pointers:
`parentTok` is `n->parent->tok`; `parentNextTok` is
`n->parent->next->tok` (`none` for `n->parent->next == NULL`);
`hasPrev` is `n->prev != NULL`; `nextTok` is `n->next->tok`
(`none` for `n->next == NULL`). -/
structure Ctx : Type where
  parentTok : RoffTok
  parentNextTok : Option RoffTok
  hasPrev : Bool
  nextTok : Option RoffTok
deriving DecidableEq, Repr

/-- A located node together with its navigation context. -/
abbrev LNode : Type := RoffNode × Ctx

/-- A C `struct roff_node *` argument: the pointed-to node followed by its
later siblings (`[]` = `NULL`), plus the context of the first node. -/
structure NodeRef : Type where
  nodes : List RoffNode
  parentTok : RoffTok
  parentNextTok : Option RoffTok
  hasPrev : Bool

/-- Outcome of running a piece of the C program: a normal return, a process
termination via `errx`/`err` (with the exit status), or undefined behaviour
(null dereference / failed assert). -/
inductive Fate (α : Type) : Type where
  | ret : α → Fate α
  | exited : MQueryLevel → Fate α
  | ub : Fate α
deriving Repr

/-- The observable effect of running a piece of the program: the text
written to stdout, the number of `warnx` diagnostics on stderr, and the
control-flow outcome. -/
structure Eff (α : Type) : Type where
  out : List Char
  diag : Nat
  fate : Fate α
deriving Repr

def Eff.retv {α : Type} (a : α) : Eff α := ⟨[], 0, .ret a⟩

/-- `errx(code, ...)`: prints a message on stderr and terminates the
process with `code` as exit status. -/
def Eff.errx {α : Type} (c : MQueryLevel) : Eff α := ⟨[], 0, .exited c⟩

/-- A null-pointer dereference or failed `assert`. -/
def Eff.crash {α : Type} : Eff α := ⟨[], 0, .ub⟩

/-- `printf`/`fputs`/`puts` on stdout. -/
def Eff.emit (s : List Char) : Eff Unit := ⟨s, 0, .ret ()⟩

/-- A `warnx` diagnostic on stderr. -/
def Eff.warn : Eff Unit := ⟨[], 1, .ret ()⟩

def Eff.bindE {α β : Type} (x : Eff α) (f : α → Eff β) : Eff β :=
  match x.fate with
  | .ret a =>
    let y := f a
    ⟨x.out ++ y.out, x.diag + y.diag, y.fate⟩
  | .exited c => ⟨x.out, x.diag, .exited c⟩
  | .ub => ⟨x.out, x.diag, .ub⟩

instance : Monad Eff where
  pure := @Eff.retv
  bind := @Eff.bindE

/-- Shorthand for building character lists out of string literals. -/
def str (s : String) : List Char := s.data

/-- Abstraction of the external `mandoc_escape`: given the characters
following the backslash, how many of them the escape sequence consumes
(`none` models `ESCAPE_ERROR`). -/
abbrev EscFn : Type := List Char → Option Nat

/-- An escape oracle that treats every escape as malformed. -/
def esc0 : EscFn := fun _ => none

/-- The inner character loop of `pstring` (`src/mquery.c`, final revision,
lines 535-554); `last` is the C `last_ch` variable, the list is the rest
of the string.  The `NODE_NOFILL` bit of the node's flags is passed as
`nofill`. -/
def pstring_go (ef : EscFn) (nofill : Bool) : Char → List Char → List Char
  | _, [] => []
  | last, c :: cs =>
    if c = '\\' then
      match ef cs with
      | none => []
      | some k => pstring_go ef nofill last (cs.drop k)
    else if c = ' ' ∧ cs = [] then []
    else if last = ' ' ∧ c = ' ' ∧ nofill then pstring_go ef nofill last cs
    else c :: pstring_go ef nofill c cs
termination_by last l => l.length
decreasing_by
  all_goals simp [List.length_drop]
  all_goals omega

/-- `pstring(p, flags)` (`src/mquery.c`, final revision, lines 522-554):
strips leading spaces (printing them when `NODE_NOFILL` is set), then runs
the character loop with `last_ch = '\0'`. -/
def pstring (ef : EscFn) (p : List Char) (nofill : Bool) : List Char :=
  (if nofill then p.takeWhile (fun c => c = ' ') else []) ++
    pstring_go ef nofill (Char.ofNat 0) (p.dropWhile (fun c => c = ' '))

mutual

/-- `deroff_print(n)` (`src/mquery.c`, final revision, lines 559-650):
the recursive plain-text reconstructor.  `c` carries the values the C code
reads through `n->parent`, `n->prev` and `n->next`.  Returns the text
written to stdout (the C function always returns `MQUERYLEVEL_OK` except
on an unmodelled output-stream failure). -/
def deroff_print (ef : EscFn) : RoffNode → Ctx → List Char
  | .mk ty tk fl s _hi _bi cs, c =>
    if fl.noprt then []
    else
      let em0 : List Char × List Char :=
        match tk with
        | .An => (str "", if cs.isEmpty then str "" else str " ")
        | .Aq => (str "<", str ">\n")
        | .Bd => (str "\n\n@CODE\n", str "@CODE\n")
        | .Pp => (str "\n", str "\n")
        | .Pq => (str " (", str ") ")
        | .Nm => (str " ", str " ")
        | .Pa => (str " ", str " ")
        | _ => if fl.line ∨ c.parentTok = .It then (str "", str " ") else (str " ", str " ")
      let em := if c.parentTok = .Aq then (str "", str "") else em0
      if ty ≠ .text then
        (if ty = .block ∨ ty = .elem then em.1 else []) ++
          deroff_kids ef tk c.nextTok false cs ++
          (if ty = .block ∨ ty = .elem then em.2 else [])
      else
        let tb := if c.parentTok = .Lk ∧ c.hasPrev then str " (" else str ""
        let ta0 := if c.nextTok = none ∧ c.parentNextTok = some .Pp then str "" else str ""
        let ta1 := if c.parentTok = .Lk ∧ c.hasPrev then str ")" else ta0
        let ta := if fl.nofill then str "\n" else ta1
        tb ++ pstring ef s fl.nofill ++ ta

/-- The child loop `for (n = n->child; n != NULL; n = n->next)
deroff_print(n);` of `deroff_print`, handing each child its context:
the parent is the node being printed (token `ptok`), the parent's next
sibling is the printed node's own next sibling (`pnext`), `hp` says
whether the child has a previous sibling. -/
def deroff_kids (ef : EscFn) (ptok : RoffTok) (pnext : Option RoffTok) : Bool → List RoffNode → List Char
  | _, [] => []
  | hp, k :: ks =>
      deroff_print ef k ⟨ptok, pnext, hp, ks.head?.map RoffNode.tok⟩ ++
        deroff_kids ef ptok pnext true ks

end

/-- The recursion of ` first_node_by_macro` (`src/mquery.c`, final revision,
lines 468-488) with `errflag = 0`, over a non-`NULL` node and its later
siblings.  The C loop `for (; n != NULL; n = n->child)` tests the current
node, then searches the whole later-sibling chain via the recursive call
` first_node_by_macro(n->next, macro, 0)`, and only afterwards steps to
`n->child`: descending into `n->child` restarts the same shape on the
child list, which is exactly the third equation.  `ptok`, `pnext`, `hp`
carry the context of the first node of the list. -/
def first_node_by_macro_go (mac : RoffTok) (ptok : RoffTok) (pnext : Option RoffTok) (hp : Bool) :
    List RoffNode → Option LNode
  | [] => none
  | .mk ty tk fl s hi bi cs :: rest =>
    if tk = mac then some (.mk ty tk fl s hi bi cs, ⟨ptok, pnext, hp, rest.head?.map RoffNode.tok⟩)
    else match first_node_by_macro_go mac ptok pnext true rest with
      | some r => some r
      | none => first_node_by_macro_go mac tk (rest.head?.map RoffNode.tok) false cs

/-- ` first_node_by_macro(n, macro, errflag)` (`src/mquery.c`, final
revision, lines 468-488).  A `NULL` argument returns `NULL` *before* the
`errflag` check; otherwise, if the loop and its recursions find no match,
`errx(MQUERYLEVEL_NOTFOUND, ...)` terminates the process when `errflag`
is set.  Recursive calls pass `errflag = 0`, so only the outermost call
can raise; the pure recursion is `first_node_by_macro_go`. -/
def first_node_by_macro (mac : RoffTok) (errflag : Bool) (r : NodeRef) : Eff (Option LNode) :=
  match r.nodes with
  | [] => Eff.retv none
  | _ =>
    match first_node_by_macro_go mac r.parentTok r.parentNextTok r.hasPrev r.nodes with
    | some f => Eff.retv (some f)
    | none => if errflag then Eff.errx .NOTFOUND else Eff.retv none

/-- Abstraction of the external mandoc `deroff(char **dest, n)`: given the
current value of `*dest` (the accumulator, `none` for `NULL`) and the
head node, the new value of `*dest`. -/
abbrev DeroffFn : Type := Option (List Char) → RoffNode → Option (List Char)

/-- `strcasecmp(a, b) == 0`: ASCII case-insensitive string equality. -/
def strcaseeq (a b : List Char) : Bool :=
  a.map Char.toLower == b.map Char.toLower

/-- The recursion of `first_node_by_name` (`src/mquery.c`, final revision,
lines 493-517) with `errflag = 0`.  Same traversal shape as
`first_node_by_macro_go`; a node matches when it has a head and the
deroff'ed head text compares `strcasecmp`-equal to `name`.  The local
`char *head_text` is initialised to `NULL` once per call and mandoc's
`deroff` appends to it, so the accumulator `acc` is threaded along the
`n = n->child` descent of one loop but reset to `none` for the recursive
sibling call. -/
def first_node_by_name_go (dfn : DeroffFn) (name : List Char) (ptok : RoffTok)
    (pnext : Option RoffTok) (hp : Bool) :
    List RoffNode → Option (List Char) → Option LNode
  | [], _ => none
  | .mk ty tk fl s hi bi cs :: rest, acc =>
    match (RoffNode.mk ty tk fl s hi bi cs).headN with
    | some h0 =>
      match dfn acc h0 with
      | some t =>
        if strcaseeq t name then
          some (.mk ty tk fl s hi bi cs, ⟨ptok, pnext, hp, rest.head?.map RoffNode.tok⟩)
        else
          match first_node_by_name_go dfn name ptok pnext true rest none with
          | some r => some r
          | none => first_node_by_name_go dfn name tk (rest.head?.map RoffNode.tok) false cs (some t)
      | none =>
        match first_node_by_name_go dfn name ptok pnext true rest none with
        | some r => some r
        | none => first_node_by_name_go dfn name tk (rest.head?.map RoffNode.tok) false cs none
    | none =>
      match first_node_by_name_go dfn name ptok pnext true rest none with
      | some r => some r
      | none => first_node_by_name_go dfn name tk (rest.head?.map RoffNode.tok) false cs acc

/-- `first_node_by_name(n, section_name, errflag)` (`src/mquery.c`, final
revision, lines 493-517); `NULL`/`errflag` handling exactly as in
` first_node_by_macro`. -/
def first_node_by_name (dfn : DeroffFn) (name : List Char) (errflag : Bool) (r : NodeRef) :
    Eff (Option LNode) :=
  match r.nodes with
  | [] => Eff.retv none
  | _ =>
    match first_node_by_name_go dfn name r.parentTok r.parentNextTok r.hasPrev r.nodes none with
    | some f => Eff.retv (some f)
    | none => if errflag then Eff.errx .NOTFOUND else Eff.retv none

/-- `n->head->next->tok` for an item node (`none` when absent): the token
of the sibling following the head child. -/
def headNextTok (it : RoffNode) : Option RoffTok :=
  match it.headIdx with
  | none => none
  | some i => (it.children[i + 1]?).map RoffNode.tok

/-- `n->body->next->tok` for an item node (`none` when absent). -/
def bodyNextTok (it : RoffNode) : Option RoffTok :=
  match it.bodyIdx with
  | none => none
  | some i => (it.children[i + 1]?).map RoffNode.tok

/-- The item loop of `print_item_heads` (`src/mquery.c`, final revision,
lines 657-685): iterate the list body's children; skip non-`It` nodes;
`element = n->head->child` (a `NULL` head is a null dereference); an
absent first head child yields a `warnx` and is skipped; a matching
element is printed via `deroff_print` followed by `puts("")`.  Returns
the C `found` flag. -/
def print_item_heads_go (ef : EscFn) (mac : RoffTok) : List RoffNode → Eff Bool
  | [] => Eff.retv false
  | it :: rest =>
    if it.tok ≠ .It then print_item_heads_go ef mac rest
    else match it.headN with
      | none => Eff.crash
      | some h =>
        match h.children.head? with
        | none => Eff.bindE Eff.warn (fun _ => print_item_heads_go ef mac rest)
        | some element =>
          if element.tok ≠ mac then print_item_heads_go ef mac rest
          else
            Eff.bindE
              (Eff.emit (deroff_print ef element
                  ⟨h.tok, headNextTok it, false, (h.children[1]?).map RoffNode.tok⟩ ++ str "\n"))
              (fun _ => Eff.bindE (print_item_heads_go ef mac rest) (fun _ => Eff.retv true))

/-- `print_item_heads(n, macro, errflag)` (`src/mquery.c`, final revision,
lines 657-685).  `n` is the `.Bl` list's body pointer; `assert(n)` makes a
`NULL` argument a crash.  If nothing matched and `errflag` is set,
`errx(MQUERYLEVEL_NOTFOUND, ...)`; otherwise returns `MQUERYLEVEL_OK`. -/
def print_item_heads (ef : EscFn) (nb : Option RoffNode) (mac : RoffTok) (errflag : Bool) :
    Eff MQueryLevel :=
  match nb with
  | none => Eff.crash
  | some n =>
    Eff.bindE (print_item_heads_go ef mac n.children) (fun found =>
      if !found && errflag then Eff.errx .NOTFOUND else Eff.retv .OK)

/-- The item loop of `print_item_bodies` (`src/mquery.c`, final revision,
lines 692-731), with the C `found` flag as an explicit parameter (it
controls the one-shot `prepend_text`).  `element = n->body->child`; the
link special case `element->tok == MDOC_Lk && element->child->next == NULL`
dereferences `element->child`, so a matching link element with no child at
all is a null dereference, and one with exactly one child is skipped. -/
def print_item_bodies_go (ef : EscFn) (mac : RoffTok) (pre : List Char) :
    Bool → List RoffNode → Eff Bool
  | found, [] => Eff.retv found
  | found, it :: rest =>
    if it.tok ≠ .It then print_item_bodies_go ef mac pre found rest
    else match it.bodyN with
      | none => Eff.crash
      | some b =>
        match b.children.head? with
        | none => Eff.bindE Eff.warn (fun _ => print_item_bodies_go ef mac pre found rest)
        | some element =>
          if element.tok ≠ mac then print_item_bodies_go ef mac pre found rest
          else
            let doPrint :=
              Eff.bindE
                (Eff.emit ((if !found then pre else []) ++
                  deroff_print ef element
                    ⟨b.tok, bodyNextTok it, false, (b.children[1]?).map RoffNode.tok⟩ ++ str "\n"))
                (fun _ => print_item_bodies_go ef mac pre true rest)
            if element.tok = .Lk then
              match element.children with
              | [] => Eff.crash
              | [_] => print_item_bodies_go ef mac pre found rest
              | _ :: _ :: _ => doPrint
            else doPrint

/-- `print_item_bodies(n, macro, prepend_text, errflag)` (`src/mquery.c`,
final revision, lines 692-731). -/
def print_item_bodies (ef : EscFn) (nb : Option RoffNode) (mac : RoffTok) (pre : List Char)
    (errflag : Bool) : Eff MQueryLevel :=
  match nb with
  | none => Eff.crash
  | some n =>
    Eff.bindE (print_item_bodies_go ef mac pre false n.children) (fun found =>
      if !found && errflag then Eff.errx .NOTFOUND else Eff.retv .OK)

/-- The `n->body` pointer of a located node, as a `NodeRef` for a further
search: the body child and its later siblings; the chain's parent is the
node itself and the parent's next sibling is the node's own `nextTok`. -/
def bodyRef (n : RoffNode) (c : Ctx) : NodeRef :=
  match n.bodyIdx with
  | none => ⟨[], n.tok, c.nextTok, false⟩
  | some i => ⟨n.children.drop i, n.tok, c.nextTok, decide (0 < i)⟩

/-- The `n->body` pointer of a located node, as a located node. -/
def bodyLN (n : RoffNode) (c : Ctx) : Option LNode :=
  match n.bodyIdx with
  | none => none
  | some i =>
    match n.children[i]? with
    | none => none
    | some b =>
      some (b, ⟨n.tok, c.nextTok, decide (0 < i), (n.children[i + 1]?).map RoffNode.tok⟩)

/-- The `n->child` pointer of a located node, as a located node. -/
def childLN (n : RoffNode) (c : Ctx) : Option LNode :=
  match n.children with
  | [] => none
  | k :: ks => some (k, ⟨n.tok, c.nextTok, false, ks.head?.map RoffNode.tok⟩)

/-- `deroff_print` applied through a possibly-`NULL` pointer:
`deroff_print(NULL)` fails its `assert(n)`.  On success the C function
returns `MQUERYLEVEL_OK`. -/
def deroff_print_p (ef : EscFn) : Option LNode → Eff MQueryLevel
  | none => Eff.crash
  | some (n, c) => Eff.bindE (Eff.emit (deroff_print ef n c)) (fun _ => Eff.retv .OK)

/-- The `var_subsections` table of `src/mquery.c`. -/
def var_subsections : List (List Char) :=
  [str "Required variables", str "Optional variables",
   str "Output variables", str "User variables"]

/-- The argument `mdoc = meta->first->child` of `global_query` as a
`NodeRef`: the mandoc root node has token `TOKEN_NONE`, no next sibling,
and its first child has no previous sibling. -/
def rootRef (mdoc : List RoffNode) : NodeRef := ⟨mdoc, .TOKEN_NONE, none, false⟩

/-- The common shape of the `'a'`, `'d'`, `'e'`, `'m'` cases of
`global_query`: `nfound = first_node_by_name(mdoc, name, 1); return
deroff_print(nfound->body);` (dereferencing `nfound` — which is only
`NULL` when `mdoc` is `NULL` — and then asserting the body non-`NULL`). -/
def body_section_query (ef : EscFn) (dfn : DeroffFn) (mdoc : List RoffNode) (name : List Char) :
    Eff MQueryLevel :=
  Eff.bindE (first_node_by_name dfn name true (rootRef mdoc)) (fun nf =>
    match nf with
    | none => Eff.crash
    | some (n, c) => deroff_print_p ef (bodyLN n c))

/-- The `for (int i = 0; i < VAR_SUB_COUNT; ++i)` loop of the `'V'` case
of `global_query` (`src/mquery.c`, final revision, lines 764-773). -/
def variables_loop (ef : EscFn) (dfn : DeroffFn) (mdoc : List RoffNode) :
    List (List Char) → Eff MQueryLevel
  | [] => Eff.retv .OK
  | sub :: subs =>
    Eff.bindE (first_node_by_name dfn sub false (rootRef mdoc)) (fun nf =>
      match nf with
      | none => variables_loop ef dfn mdoc subs
      | some (n, c) =>
        Eff.bindE ( first_node_by_macro .Bl true (bodyRef n c)) (fun nbl =>
          match nbl with
          | none => Eff.crash
          | some (bl, _) =>
            Eff.bindE (print_item_heads ef bl.bodyN .Dv false) (fun _ =>
              Eff.bindE (print_item_heads ef bl.bodyN .Ev false) (fun _ =>
                Eff.bindE (print_item_heads ef bl.bodyN .Va false) (fun _ =>
                  variables_loop ef dfn mdoc subs)))))

/-- `global_query(mdoc, opt)` (`src/mquery.c`, final revision, lines
733-799).  `mdoc` is `meta->first->child` with its later siblings. -/
def global_query (ef : EscFn) (dfn : DeroffFn) (mdoc : List RoffNode) (opt : Char) :
    Eff MQueryLevel :=
  if opt = 'B' then
    Eff.bindE (first_node_by_name dfn (str "NAME") true (rootRef mdoc)) (fun nf =>
      match nf with
      | none => Eff.crash
      | some (n, c) =>
        Eff.bindE ( first_node_by_macro .Nd true (bodyRef n c)) (fun nd =>
          deroff_print_p ef nd))
  else if opt = 'D' then
    Eff.bindE (first_node_by_name dfn (str "DESCRIPTION") true (rootRef mdoc)) (fun nf =>
      match nf with
      | none => Eff.crash
      | some (n, c) =>
        Eff.bindE (deroff_print_p ef (bodyLN n c)) (fun _ =>
          Eff.bindE (first_node_by_name dfn (str "SEE ALSO") false (rootRef mdoc)) (fun ns =>
            match ns with
            | none => Eff.retv .OK
            | some (n2, c2) =>
              Eff.bindE ( first_node_by_macro .Bl true (bodyRef n2 c2)) (fun nbl =>
                match nbl with
                | none => Eff.crash
                | some (bl, _) =>
                  print_item_bodies ef bl.bodyN .Lk (str "\n\nReferences:\n") false))))
  else if opt = 'F' then
    Eff.bindE (first_node_by_name dfn (str "FUNCTIONS") true (rootRef mdoc)) (fun nf =>
      match nf with
      | none => Eff.crash
      | some (n, c) =>
        Eff.bindE ( first_node_by_macro .Bl true (bodyRef n c)) (fun nbl =>
          match nbl with
          | none => Eff.crash
          | some (bl, _) => print_item_heads ef bl.bodyN .Ic true))
  else if opt = 'V' then
    Eff.bindE (first_node_by_name dfn (str "ECLASS VARIABLES") true (rootRef mdoc)) (fun _ =>
      variables_loop ef dfn mdoc var_subsections)
  else if opt = 'a' then
    body_section_query ef dfn mdoc (str "AUTHORS")
  else if opt = 'b' then
    Eff.bindE (first_node_by_name dfn (str "REPORTING BUGS") true (rootRef mdoc)) (fun nf =>
      match nf with
      | none => Eff.crash
      | some (n, c) =>
        Eff.bindE ( first_node_by_macro .Lk true (bodyRef n c)) (fun nlk =>
          match nlk with
          | none => Eff.crash
          | some (lk, clk) => deroff_print_p ef (childLN lk clk)))
  else if opt = 'd' then
    body_section_query ef dfn mdoc (str "DEPRECATED")
  else if opt = 'e' then
    body_section_query ef dfn mdoc (str "EXAMPLES")
  else if opt = 'm' then
    body_section_query ef dfn mdoc (str "MAINTAINERS")
  else Eff.errx .UNSUPP

/-- The order in which the locators of `mquery.c` actually test the nodes
of a sibling chain: the first node, then the whole later-sibling portion
(each node of it again in this order), and only then the first node's
child subtree. -/
def searchOrder : List RoffNode → List RoffNode
  | [] => []
  | .mk ty tk fl s hi bi cs :: rest =>
    .mk ty tk fl s hi bi cs :: (searchOrder rest ++ searchOrder cs)

/-- Pre-order document order over a sibling chain, as the spec describes
the traversal ("test the node itself, then recurse into its child subtree
before advancing to the sibling").  Modelled from the spec for comparison
with `searchOrder`. -/
def documentOrder : List RoffNode → List RoffNode
  | [] => []
  | .mk ty tk fl s hi bi cs :: rest =>
    .mk ty tk fl s hi bi cs :: (documentOrder cs ++ documentOrder rest)

/-- The per-node head-text match of `first_node_by_name`, for a deroff
oracle that ignores its accumulator argument. -/
def headMatches (dfn : DeroffFn) (name : List Char) (n : RoffNode) : Bool :=
  match n.headN with
  | some h =>
    match dfn none h with
    | some t => strcaseeq t name
    | none => false
  | none => false

/-- A simple deroff oracle for concrete examples: the flattened text of a
head node is the node's own `string` payload, ignoring any accumulator. -/
def dfnString : DeroffFn := fun _ h => some h.string

/-- Drop a single trailing space (the `pstring` end-of-string rule). -/
def dropTrailSpace : List Char → List Char
  | [] => []
  | [c] => if c = ' ' then [] else [c]
  | c :: c2 :: cs => c :: dropTrailSpace (c2 :: cs)

/-- No two adjacent spaces anywhere in the list. -/
def noDoubleSpace : List Char → Bool
  | [] => true
  | [_] => true
  | c :: c2 :: cs => !(c == ' ' && c2 == ' ') && noDoubleSpace (c2 :: cs)

mutual

/-- Rewrite the `flags` field of every node of a tree. -/
def mapFlags (f : NodeFlags → NodeFlags) : RoffNode → RoffNode
  | .mk ty tk fl s hi bi cs => .mk ty tk (f fl) s hi bi (mapFlagsList f cs)

/-- `mapFlags` over a sibling chain. -/
def mapFlagsList (f : NodeFlags → NodeFlags) : List RoffNode → List RoffNode
  | [] => []
  | n :: ns => mapFlags f n :: mapFlagsList f ns

end

/-- Set `NODE_NOPRT`, keeping the other flags. -/
def setNoprt : NodeFlags → NodeFlags := fun fl => ⟨true, fl.nofill, fl.line⟩

/-- `n->head->child` of a list item. -/
def itemHeadElem (it : RoffNode) : Option RoffNode :=
  match it.headN with
  | some h => h.children.head?
  | none => none

/-- `n->body->child` of a list item. -/
def itemBodyElem (it : RoffNode) : Option RoffNode :=
  match it.bodyN with
  | some b => b.children.head?
  | none => none

/-- Does `print_item_heads` print this item: an `It` whose head's first
child exists and carries the requested macro. -/
def pihMatches (mac : RoffTok) (it : RoffNode) : Bool :=
  it.tok == .It &&
    match itemHeadElem it with
    | some e => e.tok == mac
    | none => false

/-- What `print_item_heads` prints for a matching item: the deroff'ed
first head child followed by the `puts("")` newline. -/
def itemHeadOut (ef : EscFn) (it : RoffNode) : List Char :=
  match it.headN with
  | some h =>
    match h.children.head? with
    | some e =>
      deroff_print ef e ⟨h.tok, headNextTok it, false, (h.children[1]?).map RoffNode.tok⟩ ++
        str "\n"
    | none => []
  | none => []

/-- Items that draw the `empty item header` diagnostic. -/
def emptyHeadCount (items : List RoffNode) : Nat :=
  items.countP (fun it =>
    it.tok == .It &&
      match it.headN with
      | some h => h.children.isEmpty
      | none => false)

/-- No `It` item with a `NULL` head pointer (such an item would make
`print_item_heads` dereference `NULL`). -/
def pihSafe (items : List RoffNode) : Bool :=
  items.all (fun it => !(it.tok == .It) || (it.headN).isSome)

/-- Does `print_item_bodies` print this item: an `It` whose body's first
child exists, carries the requested macro, and is not a bare link
(a link with exactly one child). -/
def pibMatches (mac : RoffTok) (it : RoffNode) : Bool :=
  it.tok == .It &&
    match itemBodyElem it with
    | some e => e.tok == mac && !(e.tok == .Lk && e.children.length == 1)
    | none => false

/-- What `print_item_bodies` prints for a matching item. -/
def itemBodyOut (ef : EscFn) (it : RoffNode) : List Char :=
  match it.bodyN with
  | some b =>
    match b.children.head? with
    | some e =>
      deroff_print ef e ⟨b.tok, bodyNextTok it, false, (b.children[1]?).map RoffNode.tok⟩ ++
        str "\n"
    | none => []
  | none => []

/-- Items that draw the `empty item body` diagnostic. -/
def emptyBodyCount (items : List RoffNode) : Nat :=
  items.countP (fun it =>
    it.tok == .It &&
      match it.bodyN with
      | some b => b.children.isEmpty
      | none => false)

/-- The implicit precondition of `print_item_bodies`: every `It` item has
a body, and no processed element is a childless link whose token equals
the requested macro (such an element makes the bare-link test dereference
`element->child == NULL`). -/
def pibSafe (mac : RoffTok) (items : List RoffNode) : Bool :=
  items.all (fun it =>
    !(it.tok == .It) ||
      match it.bodyN with
      | none => false
      | some b =>
        match b.children.head? with
        | none => true
        | some e => !(e.tok == mac && e.tok == .Lk && e.children.isEmpty))

/-- An `Eff` whose only normal return value is `MQUERYLEVEL_OK`: every
fatal condition leaves through `errx` (`exited`) or a crash, never as a
returned status. -/
def retOnlyOK (e : Eff MQueryLevel) : Prop :=
  ∀ c, e.fate = .ret c → c = .OK

/-- A context for standalone examples: parent is the root. -/
def ctx0 : Ctx := ⟨.TOKEN_NONE, none, false, none⟩

/-- Concrete example nodes.  `exD` is a matching descendant of `exB`;
`exC` is a matching later sibling of `exB`. -/
def exD : RoffNode := .mk .elem .Ic flags0 (str "D") none none []

def exB : RoffNode := .mk .block .Sh flags0 (str "B") none none [exD]

def exC : RoffNode := .mk .elem .Ic flags0 (str "C") none none []

/-- A one-section document: `AUTHORS` containing one text run. -/
def authorsHead : RoffNode := .mk .head .Sh flags0 (str "AUTHORS") none none []

def authorsText : RoffNode := .mk .text .TOKEN_NONE flags0 (str "A. U. Thor") none none []

def authorsBody : RoffNode := .mk .body .Sh flags0 [] none none [authorsText]

def authorsSh : RoffNode := .mk .block .Sh flags0 [] (some 0) (some 1) [authorsHead, authorsBody]

def docAuthors : List RoffNode := [authorsSh]

/-- Link elements for list examples: a childless link, a bare link
(exactly one child), and a link with a description. -/
def lkEmpty : RoffNode := .mk .elem .Lk flags0 [] none none []

def lkTarget : RoffNode := .mk .text .TOKEN_NONE flags0 (str "uri") none none []

def lkBareChild : RoffNode := .mk .text .TOKEN_NONE flags0 (str "uri2") none none []

def lkDesc : RoffNode := .mk .text .TOKEN_NONE flags0 (str "desc") none none []

def lkBare : RoffNode := .mk .elem .Lk flags0 [] none none [lkBareChild]

def lkFull : RoffNode := .mk .elem .Lk flags0 [] none none [lkTarget, lkDesc]

def itBareBody : RoffNode := .mk .body .It flags0 [] none none [lkBare]

def itBare : RoffNode := .mk .block .It flags0 [] none (some 0) [itBareBody]

def itFullBody : RoffNode := .mk .body .It flags0 [] none none [lkFull]

def itFull : RoffNode := .mk .block .It flags0 [] none (some 0) [itFullBody]

def itCrashBody : RoffNode := .mk .body .It flags0 [] none none [lkEmpty]

def itCrash : RoffNode := .mk .block .It flags0 [] none (some 0) [itCrashBody]

/-- A `SEE ALSO`-style list body: one bare-link item, one full link item. -/
def seeAlsoListBody : RoffNode := .mk .body .Bl flags0 [] none none [itBare, itFull]

/-- A list body containing a childless-link item (reaches the null
dereference in `print_item_bodies`). -/
def crashListBody : RoffNode := .mk .body .Bl flags0 [] none none [itCrash]

/-- A function-list body: one item with an empty head (diagnostic), one
item with an `Ic` head. -/
def emptyHeadNode : RoffNode := .mk .head .It flags0 [] none none []

def itEmptyHead : RoffNode := .mk .block .It flags0 [] (some 0) none [emptyHeadNode]

def icText : RoffNode := .mk .text .TOKEN_NONE flags0 (str "foo") none none []

def icElem : RoffNode := .mk .elem .Ic flags0 [] none none [icText]

def itIcHead : RoffNode := .mk .head .It flags0 [] none none [icElem]

def itIc : RoffNode := .mk .block .It flags0 [] (some 0) none [itIcHead]

def funcListBody : RoffNode := .mk .body .Bl flags0 [] none none [itEmptyHead, itIc]

/-- A display block (`Bd`) with a single text child, and a node carrying
the `NO_PRINT` flag. -/
def bdText : RoffNode := .mk .text .TOKEN_NONE flags0 (str "x") none none []

def bdBlock : RoffNode := .mk .block .Bd flags0 [] none none [bdText]

def noprtNode : RoffNode := .mk .elem .Ic ⟨true, false, false⟩ (str "hidden") none none []

theorem first_node_by_macro_go_eq_find (mac : RoffTok) (ptok : RoffTok)
    (pnext : Option RoffTok) (hp : Bool) (ns : List RoffNode) :
    (first_node_by_macro_go mac ptok pnext hp ns).map Prod.fst =
      (searchOrder ns).find? (fun n => n.tok == mac) := by
  induction ptok, pnext, hp, ns using first_node_by_macro_go.induct mac with
  | case1 ptok pnext hp => simp [first_node_by_macro_go, searchOrder]
  | case2 ptok pnext hp ty fl s hi bi cs rest =>
    simp [first_node_by_macro_go, searchOrder]
  | case3 ptok pnext hp ty tk fl s hi bi cs rest ht r hr ih =>
    have hfr : (searchOrder rest).find? (fun n => n.tok == mac) = some r.1 := by
      rw [← ih, hr]
      rfl
    rw [first_node_by_macro_go, searchOrder, List.find?_cons, if_neg ht, hr]
    rw [show ((RoffNode.mk ty tk fl s hi bi cs).tok == mac) = false from by simp [ht]]
    simp [List.find?_append, hfr]
  | case4 ptok pnext hp ty tk fl s hi bi cs rest ht hr ihr ihc =>
    have hfr : (searchOrder rest).find? (fun n => n.tok == mac) = none := by
      rw [← ihr, hr]
      rfl
    rw [first_node_by_macro_go, searchOrder, List.find?_cons, if_neg ht, hr]
    rw [show ((RoffNode.mk ty tk fl s hi bi cs).tok == mac) = false from by simp [ht]]
    simp [List.find?_append, hfr, ihc]

/-- When the deroff oracle ignores its accumulator (the generic case: a
fresh `head_text` for every head), `first_node_by_name` tests nodes in the
same `searchOrder` as ` first_node_by_macro`, against `headMatches`. -/
theorem first_node_by_name_go_eq_find (dfn : DeroffFn)
    (hdfn : ∀ acc h, dfn acc h = dfn none h) (name : List Char) (ptok : RoffTok)
    (pnext : Option RoffTok) (hp : Bool) (ns : List RoffNode) (acc : Option (List Char)) :
    (first_node_by_name_go dfn name ptok pnext hp ns acc).map Prod.fst =
      (searchOrder ns).find? (headMatches dfn name) := by
  induction ptok, pnext, hp, ns, acc using first_node_by_name_go.induct dfn name with
  | case1 ptok pnext hp acc => simp [first_node_by_name_go, searchOrder]
  | case2 ptok pnext hp ty tk fl s hi bi cs rest acc h0 hh t hd hs =>
    have hd0 : dfn none h0 = some t := hdfn acc h0 ▸ hd
    rw [first_node_by_name_go, searchOrder, List.find?_cons]
    rw [show headMatches dfn name (RoffNode.mk ty tk fl s hi bi cs) = true from by
      simp [headMatches, hh, hd0, hs]]
    simp [hh, hd, hs]
  | case3 ptok pnext hp ty tk fl s hi bi cs rest acc h0 hh t hd hs r hr ih =>
    have hd0 : dfn none h0 = some t := hdfn acc h0 ▸ hd
    have hfr : (searchOrder rest).find? (headMatches dfn name) = some r.1 := by
      rw [← ih, hr]
      rfl
    rw [first_node_by_name_go, searchOrder, List.find?_cons]
    rw [show headMatches dfn name (RoffNode.mk ty tk fl s hi bi cs) = false from by
      simp [headMatches, hh, hd0]
      simpa using hs]
    simp [hh, hd, hs, hr, List.find?_append, hfr]
  | case4 ptok pnext hp ty tk fl s hi bi cs rest acc h0 hh t hd hs hr ihr ihc =>
    have hd0 : dfn none h0 = some t := hdfn acc h0 ▸ hd
    have hfr : (searchOrder rest).find? (headMatches dfn name) = none := by
      rw [← ihr, hr]
      rfl
    rw [first_node_by_name_go, searchOrder, List.find?_cons]
    rw [show headMatches dfn name (RoffNode.mk ty tk fl s hi bi cs) = false from by
      simp [headMatches, hh, hd0]
      simpa using hs]
    simp [hh, hd, hs, hr, List.find?_append, hfr, ihc]
  | case5 ptok pnext hp ty tk fl s hi bi cs rest acc h0 hh hd r hr ih =>
    have hd0 : dfn none h0 = none := hdfn acc h0 ▸ hd
    have hfr : (searchOrder rest).find? (headMatches dfn name) = some r.1 := by
      rw [← ih, hr]
      rfl
    rw [first_node_by_name_go, searchOrder, List.find?_cons]
    rw [show headMatches dfn name (RoffNode.mk ty tk fl s hi bi cs) = false from by
      simp [headMatches, hh, hd0]]
    simp [hh, hd, hr, List.find?_append, hfr]
  | case6 ptok pnext hp ty tk fl s hi bi cs rest acc h0 hh hd hr ihr ihc =>
    have hd0 : dfn none h0 = none := hdfn acc h0 ▸ hd
    have hfr : (searchOrder rest).find? (headMatches dfn name) = none := by
      rw [← ihr, hr]
      rfl
    rw [first_node_by_name_go, searchOrder, List.find?_cons]
    rw [show headMatches dfn name (RoffNode.mk ty tk fl s hi bi cs) = false from by
      simp [headMatches, hh, hd0]]
    simp [hh, hd, hr, List.find?_append, hfr, ihc]
  | case7 ptok pnext hp ty tk fl s hi bi cs rest acc hh r hr ih =>
    have hfr : (searchOrder rest).find? (headMatches dfn name) = some r.1 := by
      rw [← ih, hr]
      rfl
    rw [first_node_by_name_go, searchOrder, List.find?_cons]
    rw [show headMatches dfn name (RoffNode.mk ty tk fl s hi bi cs) = false from by
      simp [headMatches, hh]]
    simp [hh, hr, List.find?_append, hfr]
  | case8 ptok pnext hp ty tk fl s hi bi cs rest acc hh hr ihr ihc =>
    have hfr : (searchOrder rest).find? (headMatches dfn name) = none := by
      rw [← ihr, hr]
      rfl
    rw [first_node_by_name_go, searchOrder, List.find?_cons]
    rw [show headMatches dfn name (RoffNode.mk ty tk fl s hi bi cs) = false from by
      simp [headMatches, hh]]
    simp [hh, hr, List.find?_append, hfr, ihc]

@[simp] theorem Eff.bindE_retv {α β : Type} (a : α) (f : α → Eff β) :
    Eff.bindE (Eff.retv a) f = f a := by
  simp [Eff.bindE, Eff.retv]

@[simp] theorem Eff.bindE_emit {β : Type} (s : List Char) (f : Unit → Eff β) :
    Eff.bindE (Eff.emit s) f = ⟨s ++ (f ()).out, (f ()).diag, (f ()).fate⟩ := by
  simp [Eff.bindE, Eff.emit]

@[simp] theorem Eff.bindE_warn {β : Type} (f : Unit → Eff β) :
    Eff.bindE Eff.warn f = ⟨(f ()).out, 1 + (f ()).diag, (f ()).fate⟩ := by
  simp [Eff.bindE, Eff.warn]

@[simp] theorem Eff.bindE_errx {α β : Type} (c : MQueryLevel) (f : α → Eff β) :
    Eff.bindE (Eff.errx c) f = Eff.errx c := by
  simp [Eff.bindE, Eff.errx]

@[simp] theorem Eff.bindE_crash {α β : Type} (f : α → Eff β) :
    Eff.bindE (Eff.crash : Eff α) f = Eff.crash := by
  simp [Eff.bindE, Eff.crash]

@[simp] theorem Eff.bindE_mk_ret {α β : Type} (o : List Char) (d : Nat) (a : α) (f : α → Eff β) :
    Eff.bindE ⟨o, d, .ret a⟩ f = ⟨o ++ (f a).out, d + (f a).diag, (f a).fate⟩ := by
  simp [Eff.bindE]

@[simp] theorem Eff.bindE_mk_exited {α β : Type} (o : List Char) (d : Nat) (c : MQueryLevel)
    (f : α → Eff β) : Eff.bindE ⟨o, d, .exited c⟩ f = ⟨o, d, .exited c⟩ := by
  simp [Eff.bindE]

@[simp] theorem Eff.bindE_mk_ub {α β : Type} (o : List Char) (d : Nat) (f : α → Eff β) :
    Eff.bindE (⟨o, d, .ub⟩ : Eff α) f = ⟨o, d, .ub⟩ := by
  simp [Eff.bindE]

/-- Characterization of the `print_item_heads` item loop on a list without
`NULL`-headed items: the output is the concatenation of the matching
items' texts, the diagnostics count the empty-headed items, and the
returned `found` flag says whether anything matched. -/
theorem print_item_heads_go_spec (ef : EscFn) (mac : RoffTok) (items : List RoffNode)
    (hsafe : pihSafe items = true) :
    print_item_heads_go ef mac items =
      ⟨((items.filter (pihMatches mac)).map (itemHeadOut ef)).flatten,
       emptyHeadCount items,
       .ret (!(items.filter (pihMatches mac)).isEmpty)⟩ := by
  induction items with
  | nil => simp [print_item_heads_go, emptyHeadCount, Eff.retv]
  | cons it rest ih =>
    have hsr : pihSafe rest = true := by
      simp [pihSafe] at hsafe ⊢
      exact fun a ha => hsafe.2 a ha
    rw [print_item_heads_go]
    by_cases hit : it.tok = RoffTok.It
    · simp only [hit, ne_eq, not_true_eq_false, if_false]
      match hh : it.headN with
      | none =>
        exfalso
        simp [pihSafe, hit, hh] at hsafe
      | some h =>
        match he : h.children.head? with
        | none =>
          have hm : pihMatches mac it = false := by
            simp [pihMatches, itemHeadElem, hh, he]
          have hcnt : emptyHeadCount (it :: rest) = 1 + emptyHeadCount rest := by
            simp [emptyHeadCount, hit, hh, List.head?_eq_none_iff.mp he, Nat.add_comm]
          simp [he, ih hsr, hm, hcnt]
        | some e =>
          have hne : h.children.isEmpty = false := by
            cases hc : h.children with
            | nil => simp [hc] at he
            | cons a l => simp [hc]
          by_cases hem : e.tok = mac
          · have hm : pihMatches mac it = true := by
              simp [pihMatches, itemHeadElem, hit, hh, he, hem]
            have hcnt : emptyHeadCount (it :: rest) = emptyHeadCount rest := by
              simp [emptyHeadCount, hit, hh, hne]
            have hout : itemHeadOut ef it =
                deroff_print ef e
                  ⟨h.tok, headNextTok it, false, (h.children[1]?).map RoffNode.tok⟩ ++ str "\n" := by
              simp [itemHeadOut, hh, he]
            simp [he, hem, ih hsr, hm, hcnt, hout, Eff.retv, Eff.emit]
          · have hm : pihMatches mac it = false := by
              simp [pihMatches, itemHeadElem, hh, he, hem]
            have hcnt : emptyHeadCount (it :: rest) = emptyHeadCount rest := by
              simp [emptyHeadCount, hit, hh, hne]
            simp [he, hem, ih hsr, hm, hcnt]
    · have hm : pihMatches mac it = false := by
        simp [pihMatches, hit]
      have hcnt : emptyHeadCount (it :: rest) = emptyHeadCount rest := by
        simp [emptyHeadCount, hit]
      simp [hit, ih hsr, hm, hcnt]

/-- Characterization of the `print_item_bodies` item loop on a list
satisfying its implicit precondition `pibSafe`: non-matching items
(including bare links) print nothing, `prepend_text` appears exactly once
just before the first matching item when `found` starts out false, the
diagnostics count the empty-bodied items. -/
theorem print_item_bodies_go_spec (ef : EscFn) (mac : RoffTok) (pre : List Char)
    (items : List RoffNode) (found : Bool) (hsafe : pibSafe mac items = true) :
    print_item_bodies_go ef mac pre found items =
      ⟨(if found || (items.filter (pibMatches mac)).isEmpty then [] else pre) ++
        ((items.filter (pibMatches mac)).map (itemBodyOut ef)).flatten,
       emptyBodyCount items,
       .ret (found || !(items.filter (pibMatches mac)).isEmpty)⟩ := by
  induction items generalizing found with
  | nil => simp [print_item_bodies_go, emptyBodyCount, Eff.retv]
  | cons it rest ih =>
    have hsr : pibSafe mac rest = true := by
      simp [pibSafe] at hsafe ⊢
      exact fun a ha => hsafe.2 a ha
    rw [print_item_bodies_go]
    by_cases hit : it.tok = RoffTok.It
    · simp only [hit, ne_eq, not_true_eq_false, if_false]
      match hb : it.bodyN with
      | none =>
        exfalso
        simp [pibSafe, hit, hb] at hsafe
      | some b =>
        match he : b.children.head? with
        | none =>
          have hm : pibMatches mac it = false := by
            simp [pibMatches, itemBodyElem, hb, he]
          have hcnt : emptyBodyCount (it :: rest) = 1 + emptyBodyCount rest := by
            simp [emptyBodyCount, hit, hb, List.head?_eq_none_iff.mp he, Nat.add_comm]
          simp [he, ih found hsr, hm, hcnt]
        | some e =>
          have hne : b.children.isEmpty = false := by
            cases hc : b.children with
            | nil => simp [hc] at he
            | cons a l => simp [hc]
          have hcnt0 : emptyBodyCount (it :: rest) = emptyBodyCount rest := by
            simp [emptyBodyCount, hit, hb, hne]
          by_cases hem : e.tok = mac
          · have hout : itemBodyOut ef it =
                deroff_print ef e
                  ⟨b.tok, bodyNextTok it, false, (b.children[1]?).map RoffNode.tok⟩ ++ str "\n" := by
              simp [itemBodyOut, hb, he]
            by_cases hlk : e.tok = RoffTok.Lk
            · have hml : mac = RoffTok.Lk := by rw [← hem, hlk]
              subst hml
              match hcs : e.children with
              | [] =>
                exfalso
                simp [pibSafe, hit, hb, he, hem, hcs] at hsafe
              | [x] =>
                have hm : pibMatches RoffTok.Lk it = false := by
                  simp [pibMatches, itemBodyElem, hit, hb, he, hem, hcs]
                simp [he, hem, hcs, ih found hsr, hm, hcnt0]
              | x :: y :: zs =>
                have hm : pibMatches RoffTok.Lk it = true := by
                  simp [pibMatches, itemBodyElem, hit, hb, he, hem, hcs]
                simp [he, hem, hcs, ih true hsr, hm, hcnt0, hout, Eff.emit]
                cases found <;> simp
            · have hmlk : ¬mac = RoffTok.Lk := by
                rw [← hem]
                exact hlk
              have hm : pibMatches mac it = true := by
                simp [pibMatches, itemBodyElem, hit, hb, he, hem, hmlk]
              simp [he, hem, hmlk, ih true hsr, hm, hcnt0, hout, Eff.emit]
              cases found <;> simp
          · have hm : pibMatches mac it = false := by
              simp [pibMatches, itemBodyElem, hb, he, hem]
            simp [he, hem, ih found hsr, hm, hcnt0]
    · have hm : pibMatches mac it = false := by
        simp [pibMatches, hit]
      have hcnt : emptyBodyCount (it :: rest) = emptyBodyCount rest := by
        simp [emptyBodyCount, hit]
      simp [hit, ih found hsr, hm, hcnt]

/-- The `pstring` character loop on escape-free text with no two adjacent
spaces copies its input, dropping a single trailing space, in both fill
modes; `last` must not create an adjacent-space pair with the first
character. -/
theorem pstring_go_spec (ef : EscFn) (nofill : Bool) (last : Char) (cs : List Char)
    (hnb : cs.all (fun c => c != '\\') = true) (hnd : noDoubleSpace cs = true)
    (hlast : ¬(last = ' ' ∧ cs.head? = some ' ')) :
    pstring_go ef nofill last cs = dropTrailSpace cs := by
  induction cs generalizing last with
  | nil => simp [pstring_go, dropTrailSpace]
  | cons c cs ih =>
    have hcb : ¬c = '\\' := by
      simp [List.all_cons] at hnb
      simpa using hnb.1
    have hnb2 : cs.all (fun c => c != '\\') = true := by
      simp [List.all_cons] at hnb
      exact List.all_eq_true.mpr (fun a ha => by simpa using hnb.2 a ha)
    rw [pstring_go, if_neg hcb]
    match hcs : cs with
    | [] =>
      by_cases hsp : c = ' '
      · simp [hsp, dropTrailSpace, pstring_go]
      · simp [hsp, dropTrailSpace, pstring_go]
    | c2 :: cs2 =>
      rw [noDoubleSpace, Bool.and_eq_true] at hnd
      have hnd2 : noDoubleSpace (c2 :: cs2) = true := hnd.2
      have hpair : ¬(c = ' ' ∧ c2 = ' ') := by
        have := hnd.1
        intro hcc
        simp [hcc.1, hcc.2] at this
      have hno : ¬(c = ' ' ∧ c2 :: cs2 = []) := by
        simp
      rw [if_neg hno]
      have hnol : ¬(last = ' ' ∧ c = ' ' ∧ nofill = true) := by
        intro hcc
        exact hlast ⟨hcc.1, by simp [hcs, hcc.2.1]⟩
      rw [if_neg hnol]
      have ihc := ih c hnb2 hnd2 (by
        intro hcc
        exact hpair ⟨hcc.1, by simpa using hcc.2⟩)
      rw [ihc]
      simp [dropTrailSpace]

/-- `pstring` on escape-free text with no leading space and no two
adjacent spaces copies its input minus a single trailing space, in both
fill modes. -/
theorem pstring_spec (ef : EscFn) (nofill : Bool) (p : List Char)
    (hnb : p.all (fun c => c != '\\') = true) (hnd : noDoubleSpace p = true)
    (hlead : ¬p.head? = some ' ') :
    pstring ef p nofill = dropTrailSpace p := by
  have hc : ∀ c cs, p = c :: cs → ¬c = ' ' := by
    intro c cs hp hsp
    exact hlead (by simp [hp, hsp])
  have htw : p.takeWhile (fun c => c = ' ') = [] := by
    cases p with
    | nil => simp
    | cons c cs => simp [List.takeWhile, hc c cs rfl]
  have hdw : p.dropWhile (fun c => c = ' ') = p := by
    cases p with
    | nil => simp
    | cons c cs => simp [List.dropWhile, hc c cs rfl]
  have hlast : ¬(Char.ofNat 0 = ' ' ∧ p.head? = some ' ') := by
    intro hcc
    exact absurd hcc.1 (by decide)
  rw [pstring, htw, hdw, pstring_go_spec ef nofill (Char.ofNat 0) p hnb hnd hlast]
  cases nofill <;> simp

@[simp] theorem mapFlags_mk (f : NodeFlags → NodeFlags) (ty tk fl s hi bi cs) :
    mapFlags f (.mk ty tk fl s hi bi cs) = .mk ty tk (f fl) s hi bi (mapFlagsList f cs) := by
  rw [mapFlags]

@[simp] theorem tok_mapFlags (f : NodeFlags → NodeFlags) (n : RoffNode) :
    (mapFlags f n).tok = n.tok := by
  cases n
  simp

@[simp] theorem mapFlagsList_nil (f : NodeFlags → NodeFlags) : mapFlagsList f [] = [] := by
  rw [mapFlagsList]

@[simp] theorem mapFlagsList_cons (f : NodeFlags → NodeFlags) (n : RoffNode) (ns : List RoffNode) :
    mapFlagsList f (n :: ns) = mapFlags f n :: mapFlagsList f ns := by
  rw [mapFlagsList]

theorem mapFlagsList_headTok (f : NodeFlags → NodeFlags) (ns : List RoffNode) :
    (mapFlagsList f ns).head?.map RoffNode.tok = ns.head?.map RoffNode.tok := by
  cases ns <;> simp

/-- Rewriting the flags of every node does not change what
` first_node_by_macro` finds (up to the same rewriting of the returned
node): the locator looks only at tokens. -/
theorem first_node_by_macro_go_mapFlags (f : NodeFlags → NodeFlags) (mac : RoffTok)
    (ptok : RoffTok) (pnext : Option RoffTok) (hp : Bool) (ns : List RoffNode) :
    first_node_by_macro_go mac ptok pnext hp (mapFlagsList f ns) =
      (first_node_by_macro_go mac ptok pnext hp ns).map (fun r => (mapFlags f r.1, r.2)) := by
  induction ptok, pnext, hp, ns using first_node_by_macro_go.induct mac with
  | case1 ptok pnext hp => simp [first_node_by_macro_go]
  | case2 ptok pnext hp ty fl s hi bi cs rest =>
    rw [mapFlagsList_cons, mapFlags_mk]
    rw [first_node_by_macro_go, first_node_by_macro_go]
    simp [mapFlagsList_headTok]
  | case3 ptok pnext hp ty tk fl s hi bi cs rest ht r hr ih =>
    rw [mapFlagsList_cons, mapFlags_mk]
    rw [first_node_by_macro_go, first_node_by_macro_go]
    rw [if_neg ht, if_neg ht, ih, hr]
    simp
  | case4 ptok pnext hp ty tk fl s hi bi cs rest ht hr ihr ihc =>
    rw [mapFlagsList_cons, mapFlags_mk]
    rw [first_node_by_macro_go, first_node_by_macro_go]
    rw [if_neg ht, if_neg ht, ihr, hr]
    simp [mapFlagsList_headTok, ihc]

theorem retOnlyOK_bindE {α : Type} {x : Eff α} {f : α → Eff MQueryLevel}
    (hf : ∀ a, retOnlyOK (f a)) : retOnlyOK (Eff.bindE x f) := by
  intro c h
  unfold Eff.bindE at h
  cases hx : x.fate with
  | ret a =>
    rw [hx] at h
    simp at h
    exact hf a c h
  | exited c2 =>
    rw [hx] at h
    simp at h
  | ub =>
    rw [hx] at h
    simp at h

theorem retOnlyOK_retv_OK : retOnlyOK (Eff.retv .OK) := by
  intro c h
  simp [Eff.retv] at h
  exact h.symm

theorem retOnlyOK_errx (c0 : MQueryLevel) : retOnlyOK (Eff.errx c0) := by
  intro c h
  simp [Eff.errx] at h

theorem retOnlyOK_crash : retOnlyOK Eff.crash := by
  intro c h
  simp [Eff.crash] at h

theorem retOnlyOK_deroff_print_p (ef : EscFn) (x : Option LNode) :
    retOnlyOK (deroff_print_p ef x) := by
  cases x with
  | none => exact retOnlyOK_crash
  | some p =>
    obtain ⟨n, c⟩ := p
    intro c0 h
    simp [deroff_print_p, Eff.emit, Eff.retv] at h
    exact h.symm

theorem retOnlyOK_print_item_heads (ef : EscFn) (nb : Option RoffNode) (mac : RoffTok)
    (errflag : Bool) : retOnlyOK (print_item_heads ef nb mac errflag) := by
  cases nb with
  | none => exact retOnlyOK_crash
  | some n =>
    apply retOnlyOK_bindE
    intro found
    by_cases hc : (!found && errflag) = true
    · simp only [print_item_heads, hc, if_true]
      exact retOnlyOK_errx _
    · simp only [print_item_heads, hc, if_false]
      exact retOnlyOK_retv_OK

theorem retOnlyOK_print_item_bodies (ef : EscFn) (nb : Option RoffNode) (mac : RoffTok)
    (pre : List Char) (errflag : Bool) : retOnlyOK (print_item_bodies ef nb mac pre errflag) := by
  cases nb with
  | none => exact retOnlyOK_crash
  | some n =>
    apply retOnlyOK_bindE
    intro found
    by_cases hc : (!found && errflag) = true
    · simp only [print_item_bodies, hc, if_true]
      exact retOnlyOK_errx _
    · simp only [print_item_bodies, hc, if_false]
      exact retOnlyOK_retv_OK

theorem retOnlyOK_body_section_query (ef : EscFn) (dfn : DeroffFn) (mdoc : List RoffNode)
    (name : List Char) : retOnlyOK (body_section_query ef dfn mdoc name) := by
  apply retOnlyOK_bindE
  intro nf
  cases nf with
  | none => exact retOnlyOK_crash
  | some p =>
    obtain ⟨n, c⟩ := p
    exact retOnlyOK_deroff_print_p ef (bodyLN n c)

theorem retOnlyOK_variables_loop (ef : EscFn) (dfn : DeroffFn) (mdoc : List RoffNode)
    (subs : List (List Char)) : retOnlyOK (variables_loop ef dfn mdoc subs) := by
  induction subs with
  | nil =>
    rw [variables_loop]
    exact retOnlyOK_retv_OK
  | cons s subs ih =>
    rw [variables_loop]
    apply retOnlyOK_bindE
    intro nf
    cases nf with
    | none => exact ih
    | some p =>
      obtain ⟨n, c⟩ := p
      apply retOnlyOK_bindE
      intro nbl
      cases nbl with
      | none => exact retOnlyOK_crash
      | some q =>
        obtain ⟨bl, cq⟩ := q
        apply retOnlyOK_bindE
        intro a1
        apply retOnlyOK_bindE
        intro a2
        apply retOnlyOK_bindE
        intro a3
        exact ih

/-- C1 (amended).  The locator primitives ` first_node_by_macro` and
`first_node_by_name` return the first matching node in the order: current
node first, then the later siblings' subtrees (each in this same order),
and only afterwards the current node's child subtree — so a match among a
node's later siblings is returned in preference to a match among its
descendants (not pre-order document order, which the counterexample
refutes).  For `first_node_by_name` this is stated for deroff oracles
whose result does not depend on the accumulated `head_text`. -/
theorem claim_C1 (mac : RoffTok) (ptok : RoffTok) (pnext : Option RoffTok) (hp : Bool)
    (ns : List RoffNode) (dfn : DeroffFn) (hdfn : ∀ acc h, dfn acc h = dfn none h)
    (name : List Char) (acc : Option (List Char)) :
    ((first_node_by_macro_go mac ptok pnext hp ns).map Prod.fst =
      (searchOrder ns).find? (fun n => n.tok == mac)) ∧
    ((first_node_by_name_go dfn name ptok pnext hp ns acc).map Prod.fst =
      (searchOrder ns).find? (headMatches dfn name)) :=
  ⟨first_node_by_macro_go_eq_find mac ptok pnext hp ns,
   first_node_by_name_go_eq_find dfn hdfn name ptok pnext hp ns acc⟩

theorem claim_C1_witness :
    ((first_node_by_macro_go .Ic .TOKEN_NONE none false [exB, exC]).map Prod.fst =
      (searchOrder [exB, exC]).find? (fun n => n.tok == .Ic)) ∧
    ((first_node_by_name_go dfnString (str "NAME") .TOKEN_NONE none false [exB, exC] none).map
        Prod.fst =
      (searchOrder [exB, exC]).find? (headMatches dfnString (str "NAME"))) :=
  claim_C1 .Ic .TOKEN_NONE none false [exB, exC] dfnString (fun _ _ => rfl) (str "NAME") none

/-- C1 counterexample.  In the tree `[exB, exC]` where `exB`'s child `exD`
and `exB`'s later sibling `exC` both carry the macro `Ic`, pre-order
document order visits `exD` (string "D") before `exC` (string "C"), but
` first_node_by_macro` returns `exC`: the search is not pre-order and a
later-sibling match wins over a descendant match. -/
theorem claim_C1_counterexample :
    (first_node_by_macro_go .Ic .TOKEN_NONE none false [exB, exC]).map
        (fun r => r.1.string) = some (str "C") ∧
    ((documentOrder [exB, exC]).find? (fun n => n.tok == .Ic)).map RoffNode.string =
      some (str "D") ∧
    ¬str "C" = str "D" := by
  refine ⟨?_, ?_, by decide⟩
  · simp [first_node_by_macro_go, exB, exC, exD, flags0, str]
  · simp [documentOrder, exB, exC, exD, flags0, str]

/-- C2: the claim (and the comment in the code) say consecutive plain
spaces collapse in fill mode and are preserved in no-fill mode; the code's
`(flags & NODE_NOFILL) != 0` test does the exact opposite: on `"a  b"`,
fill mode preserves the double space and no-fill mode collapses it. -/
theorem claim_C2 :
    pstring esc0 (str "a  b") false = str "a  b" ∧
    pstring esc0 (str "a  b") true = str "a b" := by
  constructor <;> simp [pstring, pstring_go, esc0, str]

/-- C7: a text run with no backslash, no leading space and no two adjacent
spaces is reproduced by `pstring` unchanged except that one trailing space
is dropped, identically in fill mode and in literal (no-fill) mode. -/
theorem claim_C7 (ef : EscFn) (p : List Char)
    (hnb : p.all (fun c => c != '\\') = true) (hnd : noDoubleSpace p = true)
    (hlead : ¬p.head? = some ' ') :
    pstring ef p false = dropTrailSpace p ∧ pstring ef p true = dropTrailSpace p :=
  ⟨pstring_spec ef false p hnb hnd hlead, pstring_spec ef true p hnb hnd hlead⟩

theorem claim_C7_witness :
    pstring esc0 (str "a b ") false = dropTrailSpace (str "a b ") ∧
    pstring esc0 (str "a b ") true = dropTrailSpace (str "a b ") :=
  claim_C7 esc0 (str "a b ") (by decide) (by decide) (by decide)

/-- C4 (amended).  In required mode (`errflag` set) a search over a
non-`NULL` subtree with no match terminates the query with `NOT_FOUND`
(via `errx`, producing no output), and for the `'F'` selector the whole
query then exits with `NOT_FOUND` having produced no output; but — against
the claim — a `NULL`/empty subtree root returns no-match *without*
raising `NOT_FOUND`, because the `n == NULL` early return precedes the
`errflag` check (see the counterexample). -/
theorem claim_C4 :
    (∀ (mac : RoffTok) (r : NodeRef), r.nodes ≠ [] →
      first_node_by_macro_go mac r.parentTok r.parentNextTok r.hasPrev r.nodes = none →
      first_node_by_macro mac true r = ⟨[], 0, .exited .NOTFOUND⟩) ∧
    (∀ (dfn : DeroffFn) (name : List Char) (r : NodeRef), r.nodes ≠ [] →
      first_node_by_name_go dfn name r.parentTok r.parentNextTok r.hasPrev r.nodes none = none →
      first_node_by_name dfn name true r = ⟨[], 0, .exited .NOTFOUND⟩) ∧
    (∀ (ef : EscFn) (dfn : DeroffFn) (mdoc : List RoffNode), mdoc ≠ [] →
      first_node_by_name_go dfn (str "FUNCTIONS") .TOKEN_NONE none false mdoc none = none →
      global_query ef dfn mdoc 'F' = ⟨[], 0, .exited .NOTFOUND⟩) := by
  refine ⟨?_, ?_, ?_⟩
  · intro mac r hne hgo
    obtain ⟨nodes, pt, pn, hp⟩ := r
    cases nodes with
    | nil => exact absurd rfl hne
    | cons m ms =>
      simp only [ first_node_by_macro] at *
      rw [hgo]
      rfl
  · intro dfn name r hne hgo
    obtain ⟨nodes, pt, pn, hp⟩ := r
    cases nodes with
    | nil => exact absurd rfl hne
    | cons m ms =>
      simp only [first_node_by_name] at *
      rw [hgo]
      rfl
  · intro ef dfn mdoc hne hgo
    cases mdoc with
    | nil => exact absurd rfl hne
    | cons m ms =>
      rw [global_query]
      rw [if_neg (by decide), if_neg (by decide), if_pos rfl]
      have hsearch : first_node_by_name dfn (str "FUNCTIONS") true (rootRef (m :: ms)) =
          ⟨[], 0, .exited .NOTFOUND⟩ := by
        simp only [first_node_by_name, rootRef] at *
        rw [hgo]
        rfl
      rw [hsearch]
      rfl

theorem claim_C4_witness :
    global_query esc0 dfnString docAuthors 'F' = ⟨[], 0, .exited .NOTFOUND⟩ :=
  claim_C4.2.2 esc0 dfnString docAuthors (by simp [docAuthors])
    (by simp [first_node_by_name_go, docAuthors, authorsSh, authorsHead, authorsBody,
      authorsText, RoffNode.headN, dfnString, strcaseeq, str, flags0])

/-- C4 counterexample.  A required-mode search handed an empty/`NULL`
subtree root returns a plain no-match (`NULL`) instead of failing with
`NOT_FOUND`: the `n == NULL` early return bypasses the `errflag` check. -/
theorem claim_C4_counterexample :
    first_node_by_macro .Ic true ⟨[], .TOKEN_NONE, none, false⟩ =
      ⟨[], 0, .ret (none : Option LNode)⟩ ∧
    (Fate.ret (none : Option LNode)) ≠ (Fate.exited .NOTFOUND : Fate (Option LNode)) := by
  exact ⟨rfl, by simp⟩

/-- C6: a node flagged `NODE_NOPRT` produces no output at all from the
reconstructor (no enclosure, no traversal into it), while the locator
` first_node_by_macro` is insensitive to every flag: rewriting the flags of
all nodes (for instance setting `NODE_NOPRT` everywhere) changes the found
node only by the same flag rewriting — a flagged node is still found. -/
theorem claim_C6 :
    (∀ (ef : EscFn) (n : RoffNode) (c : Ctx), n.flags.noprt = true →
      deroff_print ef n c = []) ∧
    (∀ (f : NodeFlags → NodeFlags) (mac : RoffTok) (ptok : RoffTok)
      (pnext : Option RoffTok) (hp : Bool) (ns : List RoffNode),
      first_node_by_macro_go mac ptok pnext hp (mapFlagsList f ns) =
        (first_node_by_macro_go mac ptok pnext hp ns).map (fun r => (mapFlags f r.1, r.2))) := by
  constructor
  · intro ef n c hnp
    obtain ⟨ty, tk, fl, s, hi, bi, cs⟩ := n
    simp only [RoffNode.flags_mk] at hnp
    cases tk <;> simp [deroff_print, hnp]
  · intro f mac ptok pnext hp ns
    exact first_node_by_macro_go_mapFlags f mac ptok pnext hp ns

theorem claim_C6_witness :
    deroff_print esc0 noprtNode ctx0 = [] ∧
    first_node_by_macro_go .Ic .TOKEN_NONE none false (mapFlagsList setNoprt [exB, exC]) =
      (first_node_by_macro_go .Ic .TOKEN_NONE none false [exB, exC]).map
        (fun r => (mapFlags setNoprt r.1, r.2)) :=
  ⟨claim_C6.1 esc0 noprtNode ctx0 rfl,
   claim_C6.2 setNoprt .Ic .TOKEN_NONE none false [exB, exC]⟩

/-- C8 (amended).  Every `MDOC_Bd` node of block or element type that is
actually printed (not `NODE_NOPRT`) and whose parent is not an `MDOC_Aq`
node is bracketed exactly by the prefix `"\n\n@CODE\n"` and the suffix
`"@CODE\n"` around its children's output.  The parent-`Aq` override (and
the restriction to block/element types) is forced by the counterexample:
for a `Bd` under an `Aq` parent the enclosure is cleared. -/
theorem claim_C8 (ef : EscFn) (n : RoffNode) (c : Ctx) (htok : n.tok = .Bd)
    (hnop : n.flags.noprt = false) (hty : n.ntype = .block ∨ n.ntype = .elem)
    (haq : ¬c.parentTok = .Aq) :
    deroff_print ef n c =
      str "\n\n@CODE\n" ++ deroff_kids ef n.tok c.nextTok false n.children ++ str "@CODE\n" := by
  obtain ⟨ty, tk, fl, s, hi, bi, cs⟩ := n
  simp only [RoffNode.tok_mk, RoffNode.flags_mk, RoffNode.ntype_mk, RoffNode.children_mk] at *
  subst htok
  rw [deroff_print]
  rcases hty with hty | hty <;> subst hty <;> simp [hnop, haq]

theorem claim_C8_witness :
    deroff_print esc0 bdBlock ctx0 =
      str "\n\n@CODE\n" ++ deroff_kids esc0 bdBlock.tok ctx0.nextTok false bdBlock.children ++
        str "@CODE\n" :=
  claim_C8 esc0 bdBlock ctx0 rfl rfl (Or.inl rfl) (by decide)

/-- C8 counterexample.  The same display block printed with an `Aq`
parent: the enclosure is cleared and the output is just the body text
`"x"`, with no `@CODE` sentinels at all. -/
theorem claim_C8_counterexample :
    deroff_print esc0 bdBlock ⟨.Aq, none, false, none⟩ = str "x" ∧
    ¬str "x" = str "\n\n@CODE\n" ++ str "x" ++ str "@CODE\n" := by
  constructor
  · simp [deroff_print, deroff_kids, bdBlock, bdText, flags0, str, pstring, pstring_go, esc0]
  · decide

/-- C5: `extractItemBodies` on a list satisfying the function's implicit
precondition (`pibSafe`, claim C10): items that do not match — in
particular link items whose element has exactly one child, i.e. bare links
without a description — contribute no output at all; the intro text `pre`
is printed exactly once, immediately before the first matching item's
output, and not at all when no item matches. -/
theorem claim_C5 (ef : EscFn) (nb : RoffNode) (mac : RoffTok) (pre : List Char)
    (errflag : Bool) (hsafe : pibSafe mac nb.children = true) :
    print_item_bodies ef (some nb) mac pre errflag =
      ⟨(if (nb.children.filter (pibMatches mac)).isEmpty then [] else pre) ++
        ((nb.children.filter (pibMatches mac)).map (itemBodyOut ef)).flatten,
       emptyBodyCount nb.children,
       if (nb.children.filter (pibMatches mac)).isEmpty && errflag then .exited .NOTFOUND
       else .ret .OK⟩ := by
  simp only [print_item_bodies]
  rw [print_item_bodies_go_spec ef mac pre nb.children false hsafe]
  by_cases hm : (nb.children.filter (pibMatches mac)).isEmpty <;>
    cases errflag <;> simp [hm, Eff.errx, Eff.retv]

theorem claim_C5_witness :
    print_item_bodies esc0 (some seeAlsoListBody) .Lk (str "\n\nReferences:\n") false =
      ⟨(if (seeAlsoListBody.children.filter (pibMatches .Lk)).isEmpty then []
          else str "\n\nReferences:\n") ++
        ((seeAlsoListBody.children.filter (pibMatches .Lk)).map (itemBodyOut esc0)).flatten,
       emptyBodyCount seeAlsoListBody.children,
       if (seeAlsoListBody.children.filter (pibMatches .Lk)).isEmpty && false
         then .exited .NOTFOUND else .ret .OK⟩ :=
  claim_C5 esc0 seeAlsoListBody .Lk (str "\n\nReferences:\n") false (by decide)

/-- C9: in both extractors, an item whose head (for `print_item_heads`)
or body (for `print_item_bodies`) has no first child contributes exactly
one stderr diagnostic and no output; the other items are processed
normally, the loop never aborts, and the status is `NOT_FOUND` exactly
when the search was required and no item matched, `OK` otherwise. -/
theorem claim_C9 (ef : EscFn) (nb1 nb2 : RoffNode) (mh mb : RoffTok) (pre : List Char)
    (e1 e2 : Bool) (h1 : pihSafe nb1.children = true) (h2 : pibSafe mb nb2.children = true) :
    print_item_heads ef (some nb1) mh e1 =
      ⟨((nb1.children.filter (pihMatches mh)).map (itemHeadOut ef)).flatten,
       emptyHeadCount nb1.children,
       if (nb1.children.filter (pihMatches mh)).isEmpty && e1 then .exited .NOTFOUND
       else .ret .OK⟩ ∧
    print_item_bodies ef (some nb2) mb pre e2 =
      ⟨(if (nb2.children.filter (pibMatches mb)).isEmpty then [] else pre) ++
        ((nb2.children.filter (pibMatches mb)).map (itemBodyOut ef)).flatten,
       emptyBodyCount nb2.children,
       if (nb2.children.filter (pibMatches mb)).isEmpty && e2 then .exited .NOTFOUND
       else .ret .OK⟩ := by
  constructor
  · simp only [print_item_heads]
    rw [print_item_heads_go_spec ef mh nb1.children h1]
    by_cases hm : (nb1.children.filter (pihMatches mh)).isEmpty <;>
      cases e1 <;> simp [hm, Eff.errx, Eff.retv]
  · simp only [print_item_bodies]
    rw [print_item_bodies_go_spec ef mb pre nb2.children false h2]
    by_cases hm : (nb2.children.filter (pibMatches mb)).isEmpty <;>
      cases e2 <;> simp [hm, Eff.errx, Eff.retv]

theorem claim_C9_witness :
    print_item_heads esc0 (some funcListBody) .Ic true =
      ⟨((funcListBody.children.filter (pihMatches .Ic)).map (itemHeadOut esc0)).flatten,
       emptyHeadCount funcListBody.children,
       if (funcListBody.children.filter (pihMatches .Ic)).isEmpty && true
         then .exited .NOTFOUND else .ret .OK⟩ ∧
    print_item_bodies esc0 (some seeAlsoListBody) .Lk (str "References:") true =
      ⟨(if (seeAlsoListBody.children.filter (pibMatches .Lk)).isEmpty then []
          else str "References:") ++
        ((seeAlsoListBody.children.filter (pibMatches .Lk)).map (itemBodyOut esc0)).flatten,
       emptyBodyCount seeAlsoListBody.children,
       if (seeAlsoListBody.children.filter (pibMatches .Lk)).isEmpty && true
         then .exited .NOTFOUND else .ret .OK⟩ :=
  claim_C9 esc0 funcListBody seeAlsoListBody .Ic .Lk (str "References:") true true
    (by decide) (by decide)

/-- C10: the bare-link test of `print_item_bodies` reads
`element->child->next` without a `NULL` check on `element->child`, so a
list item whose body's first child is a childless `MDOC_Lk` element (with
the link macro being searched) reaches the null dereference — the `ub`
branch of the embedding is reachable (first conjunct, at a concrete
input) — while on lists whose link elements all have at least one child
(`pibSafe`) the function never reaches it (second conjunct). -/
theorem claim_C10 :
    print_item_bodies esc0 (some crashListBody) .Lk [] false = ⟨[], 0, .ub⟩ ∧
    (∀ (ef : EscFn) (nb : RoffNode) (mac : RoffTok) (pre : List Char) (errflag : Bool),
      pibSafe mac nb.children = true →
      ¬(print_item_bodies ef (some nb) mac pre errflag).fate = .ub) := by
  constructor
  · simp [print_item_bodies, print_item_bodies_go, crashListBody, itCrash, itCrashBody,
      lkEmpty, RoffNode.bodyN, flags0, Eff.crash]
  · intro ef nb mac pre errflag hsafe
    simp only [print_item_bodies]
    rw [print_item_bodies_go_spec ef mac pre nb.children false hsafe]
    by_cases hm : (nb.children.filter (pibMatches mac)).isEmpty <;>
      cases errflag <;> simp [hm, Eff.errx, Eff.retv]

theorem claim_C10_witness :
    ¬(print_item_bodies esc0 (some seeAlsoListBody) .Lk [] false).fate = .ub :=
  claim_C10.2 esc0 seeAlsoListBody .Lk [] false (by decide)

/-- C3 (amended).  The core does terminate the process on fatal failures
(via `errx`, see the counterexample); what holds instead is: a normal
return of `global_query` always carries `MQUERYLEVEL_OK`, every other
status reaches the caller only as a process exit status. -/
theorem claim_C3 (ef : EscFn) (dfn : DeroffFn) (mdoc : List RoffNode) (opt : Char) :
    retOnlyOK (global_query ef dfn mdoc opt) := by
  unfold global_query
  split_ifs
  · apply retOnlyOK_bindE
    intro nf
    cases nf with
    | none => exact retOnlyOK_crash
    | some p =>
      obtain ⟨n, c⟩ := p
      apply retOnlyOK_bindE
      intro nd
      exact retOnlyOK_deroff_print_p ef nd
  · apply retOnlyOK_bindE
    intro nf
    cases nf with
    | none => exact retOnlyOK_crash
    | some p =>
      obtain ⟨n, c⟩ := p
      apply retOnlyOK_bindE
      intro u
      apply retOnlyOK_bindE
      intro ns
      cases ns with
      | none => exact retOnlyOK_retv_OK
      | some q =>
        obtain ⟨n2, c2⟩ := q
        apply retOnlyOK_bindE
        intro nbl
        cases nbl with
        | none => exact retOnlyOK_crash
        | some b =>
          obtain ⟨bl, cb⟩ := b
          exact retOnlyOK_print_item_bodies ef bl.bodyN .Lk (str "\n\nReferences:\n") false
  · apply retOnlyOK_bindE
    intro nf
    cases nf with
    | none => exact retOnlyOK_crash
    | some p =>
      obtain ⟨n, c⟩ := p
      apply retOnlyOK_bindE
      intro nbl
      cases nbl with
      | none => exact retOnlyOK_crash
      | some b =>
        obtain ⟨bl, cb⟩ := b
        exact retOnlyOK_print_item_heads ef bl.bodyN .Ic true
  · apply retOnlyOK_bindE
    intro u
    exact retOnlyOK_variables_loop ef dfn mdoc var_subsections
  · exact retOnlyOK_body_section_query ef dfn mdoc (str "AUTHORS")
  · apply retOnlyOK_bindE
    intro nf
    cases nf with
    | none => exact retOnlyOK_crash
    | some p =>
      obtain ⟨n, c⟩ := p
      apply retOnlyOK_bindE
      intro nlk
      cases nlk with
      | none => exact retOnlyOK_crash
      | some q =>
        obtain ⟨lk, clk⟩ := q
        exact retOnlyOK_deroff_print_p ef (childLN lk clk)
  · exact retOnlyOK_body_section_query ef dfn mdoc (str "DEPRECATED")
  · exact retOnlyOK_body_section_query ef dfn mdoc (str "EXAMPLES")
  · exact retOnlyOK_body_section_query ef dfn mdoc (str "MAINTAINERS")
  · exact retOnlyOK_errx .UNSUPP

/-- C3 counterexample.  On an unrecognized selector the core terminates
the process via `errx` with `MQUERYLEVEL_UNSUPP` as exit status, instead
of returning the status to the caller: the claim that the core never
terminates the process itself is false. -/
theorem claim_C3_counterexample :
    global_query esc0 dfnString [] 'z' = ⟨[], 0, .exited .UNSUPP⟩ ∧
    (∀ c : MQueryLevel, ¬(Fate.exited .UNSUPP : Fate MQueryLevel) = .ret c) := by
  constructor
  · rfl
  · intro c h
    exact Fate.noConfusion h

theorem claim_C3_witness :
    (global_query esc0 dfnString docAuthors 'a').fate = .ret .OK ∧
    MQueryLevel.OK = MQueryLevel.OK :=
  ⟨by simp [global_query, body_section_query, first_node_by_name, first_node_by_name_go,
      rootRef, docAuthors, authorsSh, authorsHead, authorsBody, authorsText,
      RoffNode.headN, dfnString, strcaseeq, str, flags0, bodyLN, deroff_print_p,
      Eff.emit, Eff.retv],
   claim_C3 esc0 dfnString docAuthors 'a' .OK
     (by simp [global_query, body_section_query, first_node_by_name, first_node_by_name_go,
       rootRef, docAuthors, authorsSh, authorsHead, authorsBody, authorsText,
       RoffNode.headN, dfnString, strcaseeq, str, flags0, bodyLN, deroff_print_p,
       Eff.emit, Eff.retv])⟩
